import Mathlib

/-!
# Verification of the clidle game session core

Shallow embedding of the clidle repository (a terminal Wordle variant):
the guess-evaluation algorithm (`viewGridRowFilled` in model.go), the
per-session state machine (`Update`, `doAcceptGuess`, `doAcceptChar`,
`doDeleteChar`, `doRestart`, `setStatus`, `resetStatus` in model.go), the
persistence layer (`saveGuess` in model.go; `CreateGame`, `CreateGuess`,
`GetTotalScore` in query.sql), and theorems checking the specification's
claims against these definitions.

Words (answers and guesses) are modelled as lists of byte values
(`List Nat`); the Go `[5]byte` arrays become length-5 lists.
-/

namespace Clidle

/-- The `keyState` enumeration from model.go, in `iota` order
`Unselected < Absent < Present < Correct`. -/
inductive keyState where
  | unselected
  | absent
  | present
  | correct
deriving DecidableEq, Repr

/-- Numeric value of a `keyState`, as in the Go `iota` declaration. -/
def keyState.toNat : keyState → Nat
  | .unselected => 0
  | .absent => 1
  | .present => 2
  | .correct => 3

/-- Go's builtin `max` on the ordered `keyState` ints. -/
def kmax (a b : keyState) : keyState :=
  if a.toNat < b.toNat then b else a

/-! ## Guess evaluation: `viewGridRowFilled` (model.go)

The Go code copies the answer into a scratch array `letters`, marks exact
matches `Correct` while zeroing the consumed letter, then scans remaining
positions left to right, marking a position `Present` iff
`bytes.IndexByte(letters, word[i])` finds the guess letter among the
unconsumed answer letters, zeroing the found occurrence. -/

/-- `consume c letters` mirrors `bytes.IndexByte(letters, c)` followed by
`letters[foundIdx] = 0`: it replaces the first occurrence of `c` by `0`,
returning `none` when `c` does not occur. -/
def consume (c : Nat) : List Nat → Option (List Nat)
  | [] => none
  | x :: xs => if x = c then some (0 :: xs) else (consume c xs).map (x :: ·)

/-- Pass 1 of `viewGridRowFilled`: positions where the guess letter equals
the answer letter are marked `correct` and the answer letter is zeroed;
all other positions start as `absent` with the answer letter kept.
Returns the per-position states and the scratch `letters` array. -/
def pass1 : List Nat → List Nat → List keyState × List Nat
  | a :: as, g :: gs =>
    let r := pass1 as gs
    if g = a then (keyState.correct :: r.1, 0 :: r.2)
    else (keyState.absent :: r.1, a :: r.2)
  | _, _ => ([], [])

/-- Pass 2 of `viewGridRowFilled`: scan positions left to right; a position
not already `correct` becomes `present` iff its guess letter still occurs
in the scratch `letters`, consuming that occurrence. -/
def pass2 : List keyState → List Nat → List Nat → List keyState × List Nat
  | st :: sts, g :: gs, letters =>
    if st = keyState.correct then
      let r := pass2 sts gs letters
      (keyState.correct :: r.1, r.2)
    else
      match consume g letters with
      | some letters2 =>
        let r := pass2 sts gs letters2
        (keyState.present :: r.1, r.2)
      | none =>
        let r := pass2 sts gs letters
        (st :: r.1, r.2)
  | sts, _, letters => (sts, letters)

/-- The per-position classification computed by `viewGridRowFilled`
(model.go): pass 1 then pass 2 on the scratch letters. -/
def viewGridRowFilled (answer guess : List Nat) : List keyState :=
  let p := pass1 answer guess
  (pass2 p.1 guess p.2).1

/-- `true` iff a position holds letter `c` and is classified `correct` or
`present`. -/
def isHit (c : Nat) (p : keyState × Nat) : Bool :=
  (p.1 == keyState.correct || p.1 == keyState.present) && p.2 == c

/-- Number of positions of `guess` carrying letter `c` that `states`
classifies as `correct` or `present`. -/
def markedCount (c : Nat) (states : List keyState) (guess : List Nat) : Nat :=
  (states.zip guess).countP (isHit c)

/-- Occurrence count of letter `c` in a word. -/
def countL (c : Nat) (l : List Nat) : Nat :=
  l.countP (fun x => x == c)

lemma countL_nil (c : Nat) : countL c [] = 0 := rfl

lemma countL_cons (c x : Nat) (l : List Nat) :
    countL c (x :: l) = countL c l + if x = c then 1 else 0 := by
  simp [countL, List.countP_cons]

lemma markedCount_cons (c : Nat) (st : keyState) (sts : List keyState)
    (y : Nat) (ys : List Nat) :
    markedCount c (st :: sts) (y :: ys)
      = markedCount c sts ys + if isHit c (st, y) = true then 1 else 0 := by
  simp [markedCount, List.countP_cons]

lemma isHit_correct (c y : Nat) :
    isHit c (keyState.correct, y) = (y == c) := by
  simp [isHit]

lemma isHit_present (c y : Nat) :
    isHit c (keyState.present, y) = (y == c) := by
  simp [isHit]

lemma isHit_not_cp {st : keyState} (h1 : st ≠ keyState.correct)
    (h2 : st ≠ keyState.present) (c y : Nat) : isHit c (st, y) = false := by
  cases st <;> simp_all [isHit]

lemma consume_count_self {c : Nat} (hc : c ≠ 0) :
    ∀ {l l' : List Nat}, consume c l = some l' → countL c l' + 1 = countL c l := by
  intro l
  induction l with
  | nil => intro l' h; simp [consume] at h
  | cons x xs ih =>
    intro l' h
    by_cases hx : x = c
    · simp only [consume, if_pos hx] at h
      injection h with h
      subst h
      rw [countL_cons, countL_cons, if_pos hx, if_neg (Ne.symm hc)]
    · simp only [consume, if_neg hx] at h
      rcases Option.map_eq_some'.mp h with ⟨l₂, h₂, rfl⟩
      have := ih h₂
      rw [countL_cons, countL_cons]
      omega

lemma consume_count_other {c g : Nat} (hc : c ≠ 0) (hg : g ≠ c) :
    ∀ {l l' : List Nat}, consume g l = some l' → countL c l' = countL c l := by
  intro l
  induction l with
  | nil => intro l' h; simp [consume] at h
  | cons x xs ih =>
    intro l' h
    by_cases hx : x = g
    · simp only [consume, if_pos hx] at h
      injection h with h
      subst h
      rw [countL_cons, countL_cons, if_neg (Ne.symm hc),
        if_neg (fun h0 => hg (hx ▸ h0))]
    · simp only [consume, if_neg hx] at h
      rcases Option.map_eq_some'.mp h with ⟨l₂, h₂, rfl⟩
      rw [countL_cons, countL_cons, ih h₂]

lemma pass1_no_present :
    ∀ (a g : List Nat), keyState.present ∉ (pass1 a g).1 := by
  intro a
  induction a with
  | nil => intro g; cases g <;> simp [pass1]
  | cons x xs ih =>
    intro g
    cases g with
    | nil => simp [pass1]
    | cons y ys =>
      simp only [pass1]
      by_cases hxy : y = x <;> simp [hxy, ih]

/-- Pass 1 accounting: for a nonzero letter `c`, the `correct` marks with
guess letter `c` plus the remaining occurrences of `c` in the scratch
letters equal the occurrences of `c` in the answer. -/
lemma pass1_invariant {c : Nat} (hc : c ≠ 0) :
    ∀ (a g : List Nat), a.length = g.length →
      markedCount c (pass1 a g).1 g + countL c (pass1 a g).2 = countL c a := by
  intro a
  induction a with
  | nil =>
    intro g hg
    cases g with
    | nil => simp [pass1, markedCount, countL]
    | cons y ys => simp at hg
  | cons x xs ih =>
    intro g hg
    cases g with
    | nil => simp at hg
    | cons y ys =>
      have hlen : xs.length = ys.length := by simpa using hg
      have ihy := ih ys hlen
      simp only [pass1]
      by_cases hxy : y = x
      · rw [if_pos hxy]
        rw [markedCount_cons, countL_cons, countL_cons, isHit_correct,
          if_neg (Ne.symm hc)]
        subst hxy
        by_cases hyc : y = c
        · rw [if_pos hyc, if_pos (by simpa using hyc)]
          omega
        · rw [if_neg hyc, if_neg (by simpa using hyc)]
          omega
      · rw [if_neg hxy]
        rw [markedCount_cons, countL_cons, countL_cons,
          isHit_not_cp (by simp) (by simp), if_neg (by simp)]
        omega

/-- Pass 2 accounting: provided the incoming states contain no `present`
mark, the number of `correct`-or-`present` marks with guess letter `c`
plus the remaining occurrences of `c` in the scratch letters is invariant. -/
lemma pass2_invariant {c : Nat} (hc : c ≠ 0) :
    ∀ (sts : List keyState) (gs letters : List Nat),
      keyState.present ∉ sts →
      markedCount c (pass2 sts gs letters).1 gs + countL c (pass2 sts gs letters).2
        = markedCount c sts gs + countL c letters := by
  intro sts
  induction sts with
  | nil => intro gs letters _; cases gs <;> simp [pass2]
  | cons st sts ih =>
    intro gs letters hnp
    simp only [List.mem_cons, not_or] at hnp
    obtain ⟨hst, hnp⟩ := hnp
    have hst' : st ≠ keyState.present := fun h => hst h.symm
    cases gs with
    | nil => simp [pass2]
    | cons g gs =>
      simp only [pass2]
      by_cases hcor : st = keyState.correct
      · rw [if_pos hcor]
        have := ih gs letters hnp
        dsimp only
        rw [markedCount_cons, markedCount_cons, hcor]
        omega
      · rw [if_neg hcor]
        cases hcons : consume g letters with
        | some letters2 =>
          have hrec := ih gs letters2 hnp
          dsimp only
          rw [markedCount_cons, markedCount_cons, isHit_present,
            isHit_not_cp hcor hst', if_neg (show ¬(false = true) by simp)]
          by_cases hgc : g = c
          · have hcount := consume_count_self (c := c) hc (hgc ▸ hcons)
            rw [if_pos (show (g == c) = true by simpa using hgc)]
            omega
          · have hcount := consume_count_other (c := c) hc hgc hcons
            rw [if_neg (show ¬((g == c) = true) by simpa using hgc)]
            omega
        | none =>
          have := ih gs letters hnp
          dsimp only
          rw [markedCount_cons, markedCount_cons]
          omega

/-- The two-pass evaluation never over-counts: each `correct`/`present`
mark of a nonzero letter consumes one occurrence of that letter
in the answer. -/
lemma viewGridRowFilled_count {c : Nat} (hc : c ≠ 0) (a g : List Nat)
    (hlen : a.length = g.length) :
    markedCount c (viewGridRowFilled a g) g ≤ countL c a := by
  have h1 := pass1_invariant hc a g hlen
  have hnp : keyState.present ∉ (pass1 a g).1 := pass1_no_present a g
  have h2 := pass2_invariant hc (pass1 a g).1 g (pass1 a g).2 hnp
  unfold viewGridRowFilled
  dsimp only
  omega

/-! ## Persistence: the store (query.sql, schema.sql, store package)

The backing SQLite store holds a `game` table (id, answer) and a `guess`
table (game_id, guess), appended to by `CreateGame` and `CreateGuess`.
SQLite assigns each new game a fresh positive autoincrement id, modelled
by `nextId + 1`. -/

/-- The persisted tables: `game (id, answer)` rows, `guess (game_id, guess)`
rows, and the id counter of the `game` table. -/
structure Store where
  games : List (Nat × List Nat)
  guesses : List (Nat × List Nat)
  nextId : Nat
deriving DecidableEq, Repr

/-- `CreateGame` (query.sql): inserts a game row with a fresh positive id
and returns it. -/
def createGame (s : Store) (answer : List Nat) : Nat × Store :=
  let gid := s.nextId + 1
  (gid, { s with games := s.games ++ [(gid, answer)], nextId := gid })

/-- `CreateGuess` (query.sql): inserts a guess row owned by game `gid`;
row order is submission order. -/
def createGuess (s : Store) (gid : Nat) (guess : List Nat) : Store :=
  { s with guesses := s.guesses ++ [(gid, guess)] }

/-- Guesses of game `gid`, in submission order
(`guess.game_id = gid` rows). -/
def guessesOf (s : Store) (gid : Nat) : List (List Nat) :=
  (s.guesses.filter (fun r => r.1 == gid)).map (fun r => r.2)

/-- Number of guesses of a game equal to its answer: the rows produced by
`INNER JOIN guess victory ON game.id = victory.game_id AND
game.answer = victory.guess` in `GetTotalScore`. -/
def victoryCount (s : Store) (game : Nat × List Nat) : Nat :=
  (guessesOf s game.1).countP (fun w => w == game.2)

/-- Per-game score term of `GetTotalScore`: `10 * (11 - COUNT(guess.id))`
where the grouped join yields `victoryCount * numberOfGuesses` rows. -/
def gameScore (s : Store) (game : Nat × List Nat) : Int :=
  10 * (11 - (victoryCount s game : Int) * ((guessesOf s game.1).length : Int))

/-- `GetTotalScore` (query.sql): sum the per-game scores over the games
having at least one victory row (the `INNER JOIN`), an empty sum (SQL
`NULL`) reading as 0 through `sql.NullFloat64`. -/
def totalScore (s : Store) : Int :=
  ((s.games.filter (fun game => decide (0 < victoryCount s game))).map
    (gameScore s)).sum

/-! ## The session state machine (model.go, store-backed version) -/

/-- The dictionary capability consumed by the session: `IsWord` and
`GetRandomCommonWord` (the random draw modelled as an oracle word). -/
structure Dictionary where
  isWord : List Nat → Bool
  randomWord : List Nat

/-- The `model` struct of model.go (rendering styles omitted; the
`keyStates` Go map is a total function, missing keys reading as the zero
value `unselected`). -/
structure Model where
  gameID : Nat
  gameOver : Bool
  score : Int
  answer : List Nat
  status : String
  statusPending : Int
  windowHeight : Int
  windowWidth : Int
  grid : List (List Nat)
  gridRow : Nat
  gridCol : Nat
  keyStates : Nat → keyState

/-- The default status line text `fmt.Sprintf("Score: %d", m.score)`. -/
def scoreStatus (n : Int) : String :=
  "Score: " ++ toString n

/-- `resetStatus` (model.go): immediately restore the default status. -/
def resetStatus (m : Model) : Model :=
  { m with status := scoreStatus m.score }

/-- `setStatus` (model.go): set the status text; a positive duration
(`transient = true`) also increments `statusPending` and schedules a
`msgResetStatus` tick. -/
def setStatus (m : Model) (msg : String) (transient : Bool) : Model :=
  { m with status := msg,
           statusPending :=
             if transient then m.statusPending + 1 else m.statusPending }

/-- `updateScore` (model.go): fetch `GetTotalScore` from the store. -/
def updateScore (m : Model) (s : Store) : Model :=
  { m with score := totalScore s }

/-- Go's `copy(dst, src)` on byte slices: overwrite the first
`min (src.length) (dst.length)` positions of `dst` with `src`. -/
def copyWord (dst src : List Nat) : List Nat :=
  src.take dst.length ++ dst.drop (min src.length dst.length)

/-- `doRestart` (model.go): zero the game id and game-over flag, draw the
answer, reset the cursor, clear the key states, refresh the score and
restore the default status. -/
def doRestart (d : Dictionary) (s : Store) (m : Model) : Model :=
  let m1 := { m with
    gameID := 0
    gameOver := false
    answer := copyWord m.answer d.randomWord
    gridCol := 0
    gridRow := 0
    keyStates := fun _ => keyState.unselected }
  resetStatus (updateScore m1 s)

/-- `saveGuess` (model.go): lazily create the game row on the first guess
write, then insert the guess row under the materialized game id. -/
def saveGuess (m : Model) (s : Store) (guess : List Nat) : Model × Store :=
  if m.gameID = 0 then
    let r := createGame s m.answer
    ({ m with gameID := r.1 }, createGuess r.2 r.1 guess)
  else
    (m, createGuess s m.gameID guess)

/-- The key-state folding loop of `doAcceptGuess` (model.go): walk the
guess and answer positions, raise each guess letter's entry to the max of
its old state and the naive classification (`correct` on positional
match, else `present` iff the letter occurs anywhere in the full answer),
and conjoin `success` over the positional matches. -/
def updateKeys (answer0 : List Nat) :
    List Nat → List Nat → (Nat → keyState) → ((Nat → keyState) × Bool)
  | g :: gs, a :: as, ks =>
    let st := if g = a then keyState.correct
              else if answer0.contains g then keyState.present
              else keyState.absent
    let ks1 : Nat → keyState := fun k => if k = g then kmax st (ks k) else ks k
    let r := updateKeys answer0 gs as ks1
    (r.1, (g == a) && r.2)
  | _, _, ks => (ks, true)

/-- Row `r` of the grid (`m.grid[m.gridRow]`). -/
def getRow (grid : List (List Nat)) (r : Nat) : List Nat :=
  grid.getD r []

/-- Write `v` into cell `(r, c)` of the grid. -/
def setCell (grid : List (List Nat)) (r c v : Nat) : List (List Nat) :=
  grid.set r ((grid.getD r []).set c v)

/-- The loss status text of `doLoss` (model.go). -/
def wordToString (w : List Nat) : String :=
  String.mk (w.map Char.ofNat)

def lossStatus (answer : List Nat) : String :=
  "The word was " ++ wordToString answer ++ ". Better luck next time!"

/-- `doWin` (model.go): lock the grid, refresh the score, set the
permanent "You win!" status. -/
def doWin (m : Model) (s : Store) : Model × Store :=
  (setStatus (updateScore { m with gameOver := true } s) "You win!" false, s)

/-- `doLoss` (model.go): lock the grid, refresh the score, set the
permanent status revealing the answer. -/
def doLoss (m : Model) (s : Store) : Model × Store :=
  (setStatus (updateScore { m with gameOver := true } s)
    (lossStatus m.answer) false, s)

/-- `doAcceptGuess` (model.go): reject an incomplete row or a
non-dictionary word with a transient status; otherwise persist the guess,
fold the key states, advance the cursor and dispatch win/loss. -/
def doAcceptGuess (d : Dictionary) (m : Model) (s : Store) : Model × Store :=
  if m.gameOver then (m, s)
  else if m.gridCol ≠ 5 then
    (setStatus m "Your guess must be a 5-letter word." true, s)
  else
    let guess := getRow m.grid m.gridRow
    if d.isWord guess = false then
      (setStatus m "That's not a valid word." true, s)
    else
      let ms1 := saveGuess m s guess
      let uk := updateKeys m.answer guess m.answer m.keyStates
      let m2 := { ms1.1 with
        keyStates := uk.1
        gridRow := m.gridRow + 1
        gridCol := 0 }
      if uk.2 then doWin m2 ms1.2
      else if m2.gridRow = 6 then doLoss m2 ms1.2
      else (m2, ms1.2)

/-- `toAsciiUpper` (model.go). -/
def toAsciiUpper (c : Nat) : Nat :=
  if 97 ≤ c ∧ c ≤ 122 then c - 32 else c

/-- `isAsciiUpper` (model.go). -/
def isAsciiUpper (c : Nat) : Bool :=
  decide (65 ≤ c ∧ c ≤ 90)

/-- `doAcceptChar` (model.go): append an uppercase letter at the cursor
when the game is live and the current row has space. -/
def doAcceptChar (m : Model) (c : Nat) : Model :=
  if m.gameOver ∨ ¬ (m.gridRow < 6 ∧ m.gridCol < 5) then m
  else
    let ch := toAsciiUpper c
    if isAsciiUpper ch then
      { m with grid := setCell m.grid m.gridRow m.gridCol ch,
               gridCol := m.gridCol + 1 }
    else m

/-- `doDeleteChar` (model.go): retract the cursor one column when live. -/
def doDeleteChar (m : Model) : Model :=
  if m.gameOver = false ∧ 0 < m.gridCol then
    { m with gridCol := m.gridCol - 1 }
  else m

/-- The messages `Update` (model.go) dispatches on: the status-reset tick,
the key events, and window resizes. -/
inductive Msg where
  | msgResetStatus
  | keyCtrlC
  | keyCtrlR
  | keyBackspace
  | keyEnter
  | keyRunes (cs : List Nat)
  | resize (w h : Int)
deriving DecidableEq, Repr

/-- `Update` (model.go): one step of the event loop on the session state
and the shared store. A `tea.KeyMsg` first restores the default status;
the status tick decrements `statusPending` and restores the default only
at zero; Enter restarts a finished game and otherwise submits. -/
def step (d : Dictionary) : Model × Store → Msg → Model × Store
  | (m, s), Msg.msgResetStatus =>
    let m1 := { m with statusPending := m.statusPending - 1 }
    (if m1.statusPending = 0 then resetStatus m1 else m1, s)
  | (m, s), Msg.keyCtrlC => (resetStatus m, s)
  | (m, s), Msg.keyCtrlR => (doRestart d s (resetStatus m), s)
  | (m, s), Msg.keyBackspace => (doDeleteChar (resetStatus m), s)
  | (m, s), Msg.keyEnter =>
    let m0 := resetStatus m
    if m0.gameOver then (doRestart d s m0, s) else doAcceptGuess d m0 s
  | (m, s), Msg.keyRunes cs =>
    let m0 := resetStatus m
    match cs with
    | [c] => (doAcceptChar m0 c, s)
    | _ => (m0, s)
  | (m, s), Msg.resize w h =>
    ({ m with windowWidth := w, windowHeight := h }, s)

/-- The zero-valued `model` allocated by `newModel` (model.go): Go zero
values for every field, the key-state map empty. -/
def blankModel : Model where
  gameID := 0
  gameOver := false
  score := 0
  answer := [0, 0, 0, 0, 0]
  status := ""
  statusPending := 0
  windowHeight := 0
  windowWidth := 0
  grid := [[0, 0, 0, 0, 0], [0, 0, 0, 0, 0], [0, 0, 0, 0, 0],
           [0, 0, 0, 0, 0], [0, 0, 0, 0, 0], [0, 0, 0, 0, 0]]
  gridRow := 0
  gridCol := 0
  keyStates := fun _ => keyState.unselected

/-- `Init` (model.go): the fresh model immediately restarted. -/
def initModel (d : Dictionary) (s : Store) : Model :=
  doRestart d s blankModel

/-- Session states reachable by the event loop from a fresh session over
any starting store. -/
inductive Reachable (d : Dictionary) : Model × Store → Prop where
  | init (s : Store) : Reachable d (initModel d s, s)
  | next (p : Model × Store) (msg : Msg) :
      Reachable d p → Reachable d (step d p msg)

/-! ### Concrete data for evaluating the theorems -/

/-- A dictionary accepting every word, drawing "CRANE". -/
def dCrane : Dictionary :=
  { isWord := fun _ => true, randomWord := [67, 82, 65, 78, 69] }

/-- The empty ledger of a first run. -/
def emptyStore : Store :=
  { games := [], guesses := [], nextId := 0 }

/-- A ledger with one game won in 3 guesses and one lost game. -/
def sTwoGames : Store :=
  { games := [(1, [67, 82, 65, 78, 69]), (2, [83, 80, 69, 69, 68])]
    guesses := [(1, [67, 82, 65, 84, 69]), (1, [67, 82, 65, 78, 68]),
                (1, [67, 82, 65, 78, 69]), (2, [69, 82, 65, 83, 69])]
    nextId := 2 }

/-- A ledger holding one finished game. -/
def sOneGame : Store :=
  { games := [(1, [83, 80, 69, 69, 68])]
    guesses := [(1, [83, 80, 69, 69, 68])], nextId := 1 }

/-- A live session on answer "CRANE" with three letters typed. -/
def mTyped3 : Model :=
  { blankModel with answer := [67, 82, 65, 78, 69], gridCol := 3 }

/-- A live session with "CRANE" fully typed on the first row. -/
def mCraneRow : Model :=
  { blankModel with
      answer := [67, 82, 65, 78, 69]
      grid := [[67, 82, 65, 78, 69], [0, 0, 0, 0, 0], [0, 0, 0, 0, 0],
               [0, 0, 0, 0, 0], [0, 0, 0, 0, 0], [0, 0, 0, 0, 0]]
      gridCol := 5 }

/-- A live session with the wrong word "SPEED" fully typed on the first
row, no game materialized. -/
def mSpeedRow : Model :=
  { blankModel with
      answer := [67, 82, 65, 78, 69]
      grid := [[83, 80, 69, 69, 68], [0, 0, 0, 0, 0], [0, 0, 0, 0, 0],
               [0, 0, 0, 0, 0], [0, 0, 0, 0, 0], [0, 0, 0, 0, 0]]
      gridCol := 5 }

/-- A session with two transient statuses pending. -/
def mPending2 : Model :=
  { blankModel with statusPending := 2, status := "second" }

/-- A finished session with a stale first row. -/
def mFinished : Model :=
  { blankModel with
      gameOver := true
      gameID := 1
      gridRow := 1
      grid := [[83, 80, 69, 69, 68], [0, 0, 0, 0, 0], [0, 0, 0, 0, 0],
               [0, 0, 0, 0, 0], [0, 0, 0, 0, 0], [0, 0, 0, 0, 0]] }

/-! ### Field bookkeeping for the model operations -/

@[simp] lemma resetStatus_gameID (m : Model) : (resetStatus m).gameID = m.gameID := rfl
@[simp] lemma resetStatus_gameOver (m : Model) : (resetStatus m).gameOver = m.gameOver := rfl
@[simp] lemma resetStatus_score (m : Model) : (resetStatus m).score = m.score := rfl
@[simp] lemma resetStatus_answer (m : Model) : (resetStatus m).answer = m.answer := rfl
@[simp] lemma resetStatus_status (m : Model) : (resetStatus m).status = scoreStatus m.score := rfl
@[simp] lemma resetStatus_statusPending (m : Model) : (resetStatus m).statusPending = m.statusPending := rfl
@[simp] lemma resetStatus_grid (m : Model) : (resetStatus m).grid = m.grid := rfl
@[simp] lemma resetStatus_gridRow (m : Model) : (resetStatus m).gridRow = m.gridRow := rfl
@[simp] lemma resetStatus_gridCol (m : Model) : (resetStatus m).gridCol = m.gridCol := rfl
@[simp] lemma resetStatus_keyStates (m : Model) : (resetStatus m).keyStates = m.keyStates := rfl

@[simp] lemma setStatus_gameID (m : Model) (t : String) (b : Bool) : (setStatus m t b).gameID = m.gameID := rfl
@[simp] lemma setStatus_gameOver (m : Model) (t : String) (b : Bool) : (setStatus m t b).gameOver = m.gameOver := rfl
@[simp] lemma setStatus_score (m : Model) (t : String) (b : Bool) : (setStatus m t b).score = m.score := rfl
@[simp] lemma setStatus_answer (m : Model) (t : String) (b : Bool) : (setStatus m t b).answer = m.answer := rfl
@[simp] lemma setStatus_status (m : Model) (t : String) (b : Bool) : (setStatus m t b).status = t := rfl
@[simp] lemma setStatus_statusPending (m : Model) (t : String) (b : Bool) :
    (setStatus m t b).statusPending = if b then m.statusPending + 1 else m.statusPending := rfl
@[simp] lemma setStatus_grid (m : Model) (t : String) (b : Bool) : (setStatus m t b).grid = m.grid := rfl
@[simp] lemma setStatus_gridRow (m : Model) (t : String) (b : Bool) : (setStatus m t b).gridRow = m.gridRow := rfl
@[simp] lemma setStatus_gridCol (m : Model) (t : String) (b : Bool) : (setStatus m t b).gridCol = m.gridCol := rfl
@[simp] lemma setStatus_keyStates (m : Model) (t : String) (b : Bool) : (setStatus m t b).keyStates = m.keyStates := rfl

@[simp] lemma updateScore_gameID (m : Model) (s : Store) : (updateScore m s).gameID = m.gameID := rfl
@[simp] lemma updateScore_gameOver (m : Model) (s : Store) : (updateScore m s).gameOver = m.gameOver := rfl
@[simp] lemma updateScore_score (m : Model) (s : Store) : (updateScore m s).score = totalScore s := rfl
@[simp] lemma updateScore_answer (m : Model) (s : Store) : (updateScore m s).answer = m.answer := rfl
@[simp] lemma updateScore_status (m : Model) (s : Store) : (updateScore m s).status = m.status := rfl
@[simp] lemma updateScore_statusPending (m : Model) (s : Store) : (updateScore m s).statusPending = m.statusPending := rfl
@[simp] lemma updateScore_grid (m : Model) (s : Store) : (updateScore m s).grid = m.grid := rfl
@[simp] lemma updateScore_gridRow (m : Model) (s : Store) : (updateScore m s).gridRow = m.gridRow := rfl
@[simp] lemma updateScore_gridCol (m : Model) (s : Store) : (updateScore m s).gridCol = m.gridCol := rfl
@[simp] lemma updateScore_keyStates (m : Model) (s : Store) : (updateScore m s).keyStates = m.keyStates := rfl

@[simp] lemma doRestart_gameID (d : Dictionary) (s : Store) (m : Model) : (doRestart d s m).gameID = 0 := rfl
@[simp] lemma doRestart_gameOver (d : Dictionary) (s : Store) (m : Model) : (doRestart d s m).gameOver = false := rfl
@[simp] lemma doRestart_score (d : Dictionary) (s : Store) (m : Model) : (doRestart d s m).score = totalScore s := rfl
@[simp] lemma doRestart_answer (d : Dictionary) (s : Store) (m : Model) :
    (doRestart d s m).answer = copyWord m.answer d.randomWord := rfl
@[simp] lemma doRestart_status (d : Dictionary) (s : Store) (m : Model) :
    (doRestart d s m).status = scoreStatus (totalScore s) := rfl
@[simp] lemma doRestart_statusPending (d : Dictionary) (s : Store) (m : Model) :
    (doRestart d s m).statusPending = m.statusPending := rfl
@[simp] lemma doRestart_grid (d : Dictionary) (s : Store) (m : Model) : (doRestart d s m).grid = m.grid := rfl
@[simp] lemma doRestart_gridRow (d : Dictionary) (s : Store) (m : Model) : (doRestart d s m).gridRow = 0 := rfl
@[simp] lemma doRestart_gridCol (d : Dictionary) (s : Store) (m : Model) : (doRestart d s m).gridCol = 0 := rfl
@[simp] lemma doRestart_keyStates (d : Dictionary) (s : Store) (m : Model) :
    (doRestart d s m).keyStates = fun _ => keyState.unselected := rfl

/-! ## C1: `GetTotalScore` computes the spec's per-game sum -/

/-- A game row is win-consistent when its victory-row count matches the
last-guess win test: 1 when the last guess equals the answer, 0
otherwise. A single game session always writes such rows, because a
winning guess ends the game (proved along reachable states in
`reachable_store_winConsistent` below). -/
def winConsistent (s : Store) (game : Nat × List Nat) : Prop :=
  victoryCount s game
    = if (guessesOf s game.1).getLast? = some game.2 then 1 else 0

instance (s : Store) (game : Nat × List Nat) :
    Decidable (winConsistent s game) := by
  unfold winConsistent
  infer_instance

/-- Spec-side per-game contribution (refinement target, following the
spec's words): count the game's guesses; the game is a win iff its *last*
guess equals its answer; a win contributes `100 - 10*(count-1)`, a
non-win contributes 0. -/
def specGameScore (s : Store) (game : Nat × List Nat) : Int :=
  if (guessesOf s game.1).getLast? = some game.2 then
    100 - 10 * (((guessesOf s game.1).length : Int) - 1)
  else 0

/-- Spec-side total score (refinement target): sum across all games. -/
def specTotalScore (s : Store) : Int :=
  (s.games.map (specGameScore s)).sum

lemma totalScore_eq_spec_aux (s : Store) :
    ∀ L : List (Nat × List Nat),
      (∀ game ∈ L, winConsistent s game) →
      ((L.filter (fun game => decide (0 < victoryCount s game))).map
        (gameScore s)).sum
        = (L.map (specGameScore s)).sum := by
  intro L
  induction L with
  | nil => simp
  | cons gm L ih =>
    intro hL
    have hgm : victoryCount s gm
        = if (guessesOf s gm.1).getLast? = some gm.2 then 1 else 0 :=
      hL gm (List.mem_cons_self gm L)
    have hrest := ih (fun g hg => hL g (List.mem_cons_of_mem _ hg))
    by_cases hwin : (guessesOf s gm.1).getLast? = some gm.2
    · rw [if_pos hwin] at hgm
      rw [List.filter_cons, if_pos (by simp [hgm]), List.map_cons,
        List.map_cons, List.sum_cons, List.sum_cons, hrest]
      have : gameScore s gm = specGameScore s gm := by
        unfold gameScore specGameScore
        rw [hgm, if_pos hwin]
        push_cast
        ring
      rw [this]
    · rw [if_neg hwin] at hgm
      rw [List.filter_cons, if_neg (by simp [hgm]), List.map_cons,
        List.sum_cons, hrest]
      have : specGameScore s gm = 0 := by rw [specGameScore, if_neg hwin]
      rw [this]
      ring

/-- C1: `GetTotalScore` returns exactly the sum over all persisted games
of the spec's per-game contribution — for a ledger whose games are
program-shaped (the answer occurs among a game's guesses exactly once
when the last guess equals the answer, never otherwise, which is what
the session writes since a winning guess ends the game), the SQL score
equals the sum over won games of `100 - 10*(count-1)`, lost games
contributing 0. -/
theorem getTotalScore_eq_specScore (s : Store)
    (h : ∀ game ∈ s.games, winConsistent s game) :
    totalScore s = specTotalScore s :=
  totalScore_eq_spec_aux s s.games h

/-- C1 witness: a ledger with one game won in 3 guesses and one lost game
scores 80. -/
theorem getTotalScore_eq_specScore_witness :
    totalScore sTwoGames = specTotalScore sTwoGames ∧
      totalScore sTwoGames = 80 :=
  ⟨getTotalScore_eq_specScore _ (by decide), by decide⟩

/-! ## C2: the evaluation never over-counts a letter -/

/-- C2: for every answer and guess of length 5 and every letter (an
uppercase byte), the two-pass classification of `viewGridRowFilled`
marks at most `count(letter, answer)` positions of the guess as
`correct`-or-`present` combined: the consume-on-use discipline never
over-counts repeated guess letters. -/
theorem viewGridRowFilled_no_overcount (a g : List Nat)
    (ha : a.length = 5) (hg : g.length = 5)
    (c : Nat) (hc1 : 65 ≤ c) (hc2 : c ≤ 90) :
    markedCount c (viewGridRowFilled a g) g ≤ countL c a :=
  viewGridRowFilled_count (by omega) a g (by omega)

/-- C2 witness: answer "SPEED", guess "ERASE", letter 'E' (69): two
positions marked, two occurrences in the answer. -/
theorem viewGridRowFilled_no_overcount_witness :
    [83, 80, 69, 69, 68].length = 5 ∧ [69, 82, 65, 83, 69].length = 5 ∧
      65 ≤ 69 ∧ 69 ≤ 90 ∧
      markedCount 69 (viewGridRowFilled [83, 80, 69, 69, 68]
        [69, 82, 65, 83, 69]) [69, 82, 65, 83, 69]
        ≤ countL 69 [83, 80, 69, 69, 68] :=
  ⟨by decide, by decide, by decide, by decide,
    viewGridRowFilled_no_overcount _ _ (by decide) (by decide) 69
      (by decide) (by decide)⟩

/-! ### Field bookkeeping for `saveGuess`, `doWin`, `doLoss` -/

@[simp] lemma saveGuess_gameOver (m : Model) (s : Store) (w : List Nat) :
    (saveGuess m s w).1.gameOver = m.gameOver := by
  unfold saveGuess; split <;> rfl

@[simp] lemma saveGuess_score (m : Model) (s : Store) (w : List Nat) :
    (saveGuess m s w).1.score = m.score := by
  unfold saveGuess; split <;> rfl

@[simp] lemma saveGuess_answer (m : Model) (s : Store) (w : List Nat) :
    (saveGuess m s w).1.answer = m.answer := by
  unfold saveGuess; split <;> rfl

@[simp] lemma saveGuess_status (m : Model) (s : Store) (w : List Nat) :
    (saveGuess m s w).1.status = m.status := by
  unfold saveGuess; split <;> rfl

@[simp] lemma saveGuess_statusPending (m : Model) (s : Store) (w : List Nat) :
    (saveGuess m s w).1.statusPending = m.statusPending := by
  unfold saveGuess; split <;> rfl

@[simp] lemma saveGuess_grid (m : Model) (s : Store) (w : List Nat) :
    (saveGuess m s w).1.grid = m.grid := by
  unfold saveGuess; split <;> rfl

@[simp] lemma saveGuess_gridRow (m : Model) (s : Store) (w : List Nat) :
    (saveGuess m s w).1.gridRow = m.gridRow := by
  unfold saveGuess; split <;> rfl

@[simp] lemma saveGuess_gridCol (m : Model) (s : Store) (w : List Nat) :
    (saveGuess m s w).1.gridCol = m.gridCol := by
  unfold saveGuess; split <;> rfl

@[simp] lemma saveGuess_keyStates (m : Model) (s : Store) (w : List Nat) :
    (saveGuess m s w).1.keyStates = m.keyStates := by
  unfold saveGuess; split <;> rfl

@[simp] lemma doWin_fst_gameOver (m : Model) (s : Store) :
    (doWin m s).1.gameOver = true := rfl

@[simp] lemma doWin_fst_status (m : Model) (s : Store) :
    (doWin m s).1.status = "You win!" := rfl

@[simp] lemma doWin_fst_score (m : Model) (s : Store) :
    (doWin m s).1.score = totalScore s := rfl

@[simp] lemma doWin_fst_statusPending (m : Model) (s : Store) :
    (doWin m s).1.statusPending = m.statusPending := rfl

@[simp] lemma doWin_fst_gridRow (m : Model) (s : Store) :
    (doWin m s).1.gridRow = m.gridRow := rfl

@[simp] lemma doWin_snd (m : Model) (s : Store) : (doWin m s).2 = s := rfl

@[simp] lemma doLoss_fst_gameOver (m : Model) (s : Store) :
    (doLoss m s).1.gameOver = true := rfl

@[simp] lemma doLoss_fst_status (m : Model) (s : Store) :
    (doLoss m s).1.status = lossStatus m.answer := rfl

@[simp] lemma doLoss_fst_score (m : Model) (s : Store) :
    (doLoss m s).1.score = totalScore s := rfl

@[simp] lemma doLoss_fst_statusPending (m : Model) (s : Store) :
    (doLoss m s).1.statusPending = m.statusPending := rfl

@[simp] lemma doLoss_fst_gridRow (m : Model) (s : Store) :
    (doLoss m s).1.gridRow = m.gridRow := rfl

@[simp] lemma doLoss_snd (m : Model) (s : Store) : (doLoss m s).2 = s := rfl

/-! ## C4: rejected submissions change only the status line -/

/-- C4: in a live game, pressing Enter with an incomplete row
(`gridCol ≠ 5`) or with a word failing the dictionary check leaves the
cursor, the grid, the key states, the game-over flag and the whole store
untouched; only the status line changes, to the matching warning. -/
theorem submit_rejected_no_mutation (d : Dictionary) (m : Model) (s : Store)
    (hgo : m.gameOver = false)
    (hrej : m.gridCol ≠ 5 ∨ d.isWord (getRow m.grid m.gridRow) = false) :
    (step d (m, s) Msg.keyEnter).1.gridRow = m.gridRow ∧
    (step d (m, s) Msg.keyEnter).1.gridCol = m.gridCol ∧
    (step d (m, s) Msg.keyEnter).1.grid = m.grid ∧
    (step d (m, s) Msg.keyEnter).1.keyStates = m.keyStates ∧
    (step d (m, s) Msg.keyEnter).1.gameOver = false ∧
    (step d (m, s) Msg.keyEnter).2 = s ∧
    (step d (m, s) Msg.keyEnter).1.status
      = (if m.gridCol ≠ 5 then "Your guess must be a 5-letter word."
         else "That's not a valid word.") := by
  by_cases hcol : m.gridCol = 5
  · have hw : d.isWord (getRow m.grid m.gridRow) = false :=
      hrej.resolve_left (by simp [hcol])
    simp [step, doAcceptGuess, hgo, hcol, hw]
  · simp [step, doAcceptGuess, hgo, hcol]

/-- C4 witness: a concrete live session (answer "CRANE", three letters
typed) where Enter is rejected for incompleteness. -/
theorem submit_rejected_no_mutation_witness :
    mTyped3.gameOver = false ∧
    (mTyped3.gridCol ≠ 5 ∨
      dCrane.isWord (getRow mTyped3.grid mTyped3.gridRow) = false) ∧
    (step dCrane (mTyped3, emptyStore) Msg.keyEnter).1.gridCol
      = mTyped3.gridCol ∧
    (step dCrane (mTyped3, emptyStore) Msg.keyEnter).2 = emptyStore :=
  ⟨rfl, Or.inl (by decide),
    ((submit_rejected_no_mutation _ _ _ rfl (Or.inl (by decide))).2.1),
    ((submit_rejected_no_mutation _ _ _ rfl (Or.inl (by decide))).2.2.2.2.2.1)⟩

/-! ## C5: accepted submissions dispatch win / loss / next row -/

/-- The `success` flag folded by `doAcceptGuess` is exactly positional
equality of guess and answer (of equal lengths). -/
lemma updateKeys_success_iff (a0 : List Nat) :
    ∀ (gs as : List Nat), gs.length = as.length → ∀ ks : Nat → keyState,
      ((updateKeys a0 gs as ks).2 = true ↔ gs = as) := by
  intro gs
  induction gs with
  | nil =>
    intro as h ks
    cases as with
    | nil => simp [updateKeys]
    | cons a as => simp at h
  | cons g gs ih =>
    intro as h ks
    cases as with
    | nil => simp at h
    | cons a as =>
      have hl : gs.length = as.length := by simpa using h
      simp [updateKeys, Bool.and_eq_true, ih as hl]

/-- `doAcceptGuess` on an accepted (live, complete, dictionary-valid)
submission takes the persist-evaluate-advance path. -/
lemma doAcceptGuess_accepted (d : Dictionary) (m : Model) (s : Store)
    (hgo : m.gameOver = false) (hcol : m.gridCol = 5)
    (hw : d.isWord (getRow m.grid m.gridRow) = true) :
    doAcceptGuess d m s =
      (let guess := getRow m.grid m.gridRow
       let ms1 := saveGuess m s guess
       let uk := updateKeys m.answer guess m.answer m.keyStates
       let m2 := { ms1.1 with
         keyStates := uk.1
         gridRow := m.gridRow + 1
         gridCol := 0 }
       if uk.2 then doWin m2 ms1.2
       else if m2.gridRow = 6 then doLoss m2 ms1.2
       else (m2, ms1.2)) := by
  unfold doAcceptGuess
  rw [if_neg (by simp [hgo]), if_neg (by simp [hcol]), if_neg (by simp [hw])]

/-- C5: an accepted guess in a live game either wins (guess = answer:
grid locks, score is refreshed from the just-updated ledger, permanent
status "You win!"), or loses on the sixth row (grid locks, score
refreshed, permanent status revealing the answer), or stays in progress
with the row advanced and the column reset to 0. -/
theorem submit_accepted_transitions (d : Dictionary) (m : Model) (s : Store)
    (hgo : m.gameOver = false) (hcol : m.gridCol = 5)
    (hw : d.isWord (getRow m.grid m.gridRow) = true)
    (hglen : (getRow m.grid m.gridRow).length = 5)
    (halen : m.answer.length = 5) :
    (getRow m.grid m.gridRow = m.answer →
      (step d (m, s) Msg.keyEnter).1.gameOver = true ∧
      (step d (m, s) Msg.keyEnter).1.status = "You win!" ∧
      (step d (m, s) Msg.keyEnter).1.score
        = totalScore (step d (m, s) Msg.keyEnter).2 ∧
      (step d (m, s) Msg.keyEnter).1.statusPending = m.statusPending) ∧
    (getRow m.grid m.gridRow ≠ m.answer → m.gridRow + 1 = 6 →
      (step d (m, s) Msg.keyEnter).1.gameOver = true ∧
      (step d (m, s) Msg.keyEnter).1.status = lossStatus m.answer ∧
      (∃ t u, (step d (m, s) Msg.keyEnter).1.status
        = t ++ wordToString m.answer ++ u) ∧
      (step d (m, s) Msg.keyEnter).1.score
        = totalScore (step d (m, s) Msg.keyEnter).2 ∧
      (step d (m, s) Msg.keyEnter).1.statusPending = m.statusPending) ∧
    (getRow m.grid m.gridRow ≠ m.answer → m.gridRow + 1 ≠ 6 →
      (step d (m, s) Msg.keyEnter).1.gameOver = false ∧
      (step d (m, s) Msg.keyEnter).1.gridRow = m.gridRow + 1 ∧
      (step d (m, s) Msg.keyEnter).1.gridCol = 0) := by
  have hstep : step d (m, s) Msg.keyEnter = doAcceptGuess d (resetStatus m) s := by
    simp [step, hgo]
  have hacc := doAcceptGuess_accepted d (resetStatus m) s
    (by simp [hgo]) (by simp [hcol]) (by simpa using hw)
  simp only [resetStatus_grid, resetStatus_gridRow, resetStatus_answer,
    resetStatus_keyStates, resetStatus_gridCol] at hacc
  have hsucc := updateKeys_success_iff m.answer (getRow m.grid m.gridRow)
    m.answer (by omega) m.keyStates
  refine ⟨?_, ?_, ?_⟩
  · intro heq
    have huk : (updateKeys m.answer (getRow m.grid m.gridRow) m.answer
        m.keyStates).2 = true := hsucc.mpr heq
    rw [hstep, hacc]
    simp only [huk, if_pos rfl, if_true]
    simp
  · intro hne hrow
    have huk : (updateKeys m.answer (getRow m.grid m.gridRow) m.answer
        m.keyStates).2 = false := by
      rcases Bool.eq_false_or_eq_true (updateKeys m.answer
        (getRow m.grid m.gridRow) m.answer m.keyStates).2 with h | h
      · exact absurd (hsucc.mp h) hne
      · exact h
    rw [hstep, hacc]
    simp only [huk, Bool.false_eq_true, if_false]
    rw [if_pos (by simpa using hrow)]
    refine ⟨by simp, by simp, ⟨"The word was ", ". Better luck next time!",
      by simp [lossStatus]⟩, by simp, by simp⟩
  · intro hne hrow
    have huk : (updateKeys m.answer (getRow m.grid m.gridRow) m.answer
        m.keyStates).2 = false := by
      rcases Bool.eq_false_or_eq_true (updateKeys m.answer
        (getRow m.grid m.gridRow) m.answer m.keyStates).2 with h | h
      · exact absurd (hsucc.mp h) hne
      · exact h
    rw [hstep, hacc]
    simp only [huk, Bool.false_eq_true, if_false]
    rw [if_neg (by simpa using hrow)]
    refine ⟨by simp [hgo], by simp, by simp⟩

/-- C5 witness: answer "CRANE" typed on the first row and accepted — the
session wins with permanent status "You win!". -/
theorem submit_accepted_transitions_witness :
    mCraneRow.gameOver = false ∧ mCraneRow.gridCol = 5 ∧
    dCrane.isWord (getRow mCraneRow.grid mCraneRow.gridRow) = true ∧
    (step dCrane (mCraneRow, emptyStore) Msg.keyEnter).1.gameOver = true ∧
    (step dCrane (mCraneRow, emptyStore) Msg.keyEnter).1.status
      = "You win!" :=
  ⟨rfl, rfl, rfl,
    ((submit_accepted_transitions _ _ _ rfl rfl rfl (by decide) (by decide)).1
      (by decide)).1,
    ((submit_accepted_transitions _ _ _ rfl rfl rfl (by decide) (by decide)).1
      (by decide)).2.1⟩

/-! ## C6: the pending-status counter debounce -/

/-- `j` successive `msgResetStatus` tick deliveries. -/
def fires (d : Dictionary) : Nat → Model × Store → Model × Store
  | 0, p => p
  | j + 1, p => fires d j (step d p Msg.msgResetStatus)

@[simp] lemma step_reset_statusPending (d : Dictionary) (m : Model) (s : Store) :
    (step d (m, s) Msg.msgResetStatus).1.statusPending = m.statusPending - 1 := by
  simp only [step]
  split <;> simp

@[simp] lemma step_reset_score (d : Dictionary) (m : Model) (s : Store) :
    (step d (m, s) Msg.msgResetStatus).1.score = m.score := by
  simp only [step]
  split <;> simp

@[simp] lemma step_reset_snd (d : Dictionary) (m : Model) (s : Store) :
    (step d (m, s) Msg.msgResetStatus).2 = s := by
  simp only [step]

lemma step_reset_status_of_ne (d : Dictionary) (m : Model) (s : Store)
    (h : m.statusPending - 1 ≠ 0) :
    (step d (m, s) Msg.msgResetStatus).1.status = m.status := by
  simp only [step]
  rw [if_neg (by simpa using h)]

lemma step_reset_status_of_eq (d : Dictionary) (m : Model) (s : Store)
    (h : m.statusPending - 1 = 0) :
    (step d (m, s) Msg.msgResetStatus).1.status = scoreStatus m.score := by
  simp only [step]
  rw [if_pos (by simpa using h)]
  simp

lemma fires_statusPending (d : Dictionary) :
    ∀ (j : Nat) (p : Model × Store),
      (fires d j p).1.statusPending = p.1.statusPending - j ∧
      (fires d j p).1.score = p.1.score ∧ (fires d j p).2 = p.2 := by
  intro j
  induction j with
  | zero => intro p; simp [fires]
  | succ j ih =>
    intro p
    obtain ⟨m, s⟩ := p
    have := ih (step d (m, s) Msg.msgResetStatus)
    simp only [fires] at *
    refine ⟨?_, ?_, ?_⟩
    · rw [this.1, step_reset_statusPending]
      omega
    · rw [this.2.1, step_reset_score]
    · rw [this.2.2, step_reset_snd]

lemma fires_status_keep (d : Dictionary) :
    ∀ (j : Nat) (p : Model × Store), (j : Int) < p.1.statusPending →
      (fires d j p).1.status = p.1.status := by
  intro j
  induction j with
  | zero => intro p _; simp [fires]
  | succ j ih =>
    intro p hlt
    obtain ⟨m, s⟩ := p
    simp only [fires]
    have hpend : (step d (m, s) Msg.msgResetStatus).1.statusPending
        = m.statusPending - 1 := step_reset_statusPending d m s
    have hrec := ih (step d (m, s) Msg.msgResetStatus)
      (by rw [hpend]; push_cast at hlt ⊢; omega)
    rw [hrec, step_reset_status_of_ne d m s (by push_cast at hlt; omega)]

lemma fires_succ_right (d : Dictionary) :
    ∀ (j : Nat) (p : Model × Store),
      fires d (j + 1) p = step d (fires d j p) Msg.msgResetStatus := by
  intro j
  induction j with
  | zero => intro p; rfl
  | succ j ih =>
    intro p
    have h1 : fires d (j + 1 + 1) p
        = fires d (j + 1) (step d p Msg.msgResetStatus) := rfl
    rw [h1, ih (step d p Msg.msgResetStatus)]
    rfl

/-- C6: with `k ≥ 1` transient statuses pending, every tick decrements
the counter by one; the first `k - 1` ticks leave the status line exactly
as it was (an earlier scheduled reset never overwrites a status set after
it), and only the `k`-th tick — the last scheduled reset — restores the
default `"Score: N"` line. -/
theorem statusTimer_debounce (d : Dictionary) (m : Model) (s : Store)
    (k : Nat) (hk : m.statusPending = (k : Int)) (h1 : 1 ≤ k) :
    (∀ j : Nat, (fires d j (m, s)).1.statusPending = (k : Int) - j ∧
      (fires d j (m, s)).2 = s) ∧
    (∀ j : Nat, j < k → (fires d j (m, s)).1.status = m.status) ∧
    (fires d k (m, s)).1.status = scoreStatus m.score := by
  refine ⟨?_, ?_, ?_⟩
  · intro j
    have h := fires_statusPending d j (m, s)
    exact ⟨by rw [h.1, hk], h.2.2⟩
  · intro j hj
    exact fires_status_keep d j (m, s) (by rw [hk]; exact_mod_cast hj)
  · obtain ⟨kk, rfl⟩ : ∃ kk, k = kk + 1 := ⟨k - 1, by omega⟩
    rw [fires_succ_right d kk (m, s)]
    have hfields := fires_statusPending d kk (m, s)
    have hp : (fires d kk (m, s)).1.statusPending = 1 := by
      rw [hfields.1, hk]; push_cast; ring
    have hsc : (fires d kk (m, s)).1.score = m.score := hfields.2.1
    rw [← Prod.mk.eta (p := fires d kk (m, s))]
    rw [step_reset_status_of_eq d _ _ (by rw [hp]; ring), hsc]

/-- C6 witness: two transient statuses pending — the first tick keeps the
current line, the second restores the default. -/
theorem statusTimer_debounce_witness :
    mPending2.statusPending = ((2 : Nat) : Int) ∧ 1 ≤ 2 ∧
    (fires dCrane 1 (mPending2, emptyStore)).1.status = mPending2.status ∧
    (fires dCrane 2 (mPending2, emptyStore)).1.status
      = scoreStatus mPending2.score :=
  ⟨rfl, by decide,
    (statusTimer_debounce _ _ _ 2 rfl (by decide)).2.1 1 (by decide),
    (statusTimer_debounce _ _ _ 2 rfl (by decide)).2.2⟩

/-! ## C7: restart clears the session state, not the ledger -/

/-- One rendered grid cell of the render model (`viewGrid`,
`viewGridRowCurrent`, `viewGridRowEmpty` in model.go), stripped of
styling: a finalized classified letter, a typed letter of the editable
row, the `_` cursor, an empty unlocked cell, or an empty locked cell. -/
inductive Cell where
  | filled (ch : Nat) (st : keyState)
  | typed (ch : Nat)
  | cursorCell
  | blankCell
  | lockedCell
deriving DecidableEq, Repr

/-- `viewGridRowCurrent` (model.go): typed letters before the cursor,
`_` at the cursor, spaces after it. -/
def viewGridRowCurrentCells (row : List Nat) (col : Nat) : List Cell :=
  (List.range 5).map fun j =>
    if j < col then Cell.typed (row.getD j 0)
    else if j = col then Cell.cursorCell
    else Cell.blankCell

/-- `viewGridRowEmpty` (model.go): blank keys, grayed out (locked) when
the game is over. -/
def viewGridRowEmptyCells (locked : Bool) : List Cell :=
  (List.range 5).map fun _ =>
    if locked then Cell.lockedCell else Cell.blankCell

/-- `viewGridRowFilled` rendered as cells: each letter with its two-pass
classification. -/
def viewGridRowFilledCells (answer row : List Nat) : List Cell :=
  ((viewGridRowFilled answer row).zip row).map fun p => Cell.filled p.2 p.1

/-- `viewGrid` (model.go): rows before the cursor row render filled, the
cursor row renders as the editable current row while the game is live,
every other row renders empty. -/
def viewGridCells (m : Model) : List (List Cell) :=
  (List.range 6).map fun i =>
    if i < m.gridRow then viewGridRowFilledCells m.answer (getRow m.grid i)
    else if i = m.gridRow ∧ m.gameOver = false then
      viewGridRowCurrentCells (getRow m.grid i) m.gridCol
    else viewGridRowEmptyCells m.gameOver

/-- The rendered view of a cleared grid: an empty editable first row and
five empty unlocked rows. -/
def emptyGridCells : List (List Cell) :=
  [Cell.cursorCell, Cell.blankCell, Cell.blankCell, Cell.blankCell,
    Cell.blankCell] ::
    List.replicate 5 (List.replicate 5 Cell.blankCell)

/-- A live session with the cursor at the origin renders the cleared
grid, whatever stale bytes the grid array holds. -/
lemma viewGridCells_origin (m : Model) (h1 : m.gridRow = 0)
    (h2 : m.gridCol = 0) (h3 : m.gameOver = false) :
    viewGridCells m = emptyGridCells := by
  simp only [viewGridCells, h1, h2, h3]
  rfl

/-- Go `copy` into a 5-byte array from a 5-byte word replaces it. -/
lemma copyWord_eq (dst src : List Nat) (hd : dst.length = 5)
    (hs : src.length = 5) : copyWord dst src = src := by
  unfold copyWord
  rw [hd, hs, List.take_of_length_le (by omega),
    List.drop_eq_nil_of_le (by omega), List.append_nil]

/-- C7: restart — explicit Ctrl-R, or Enter on a finished game, which
dispatches to the very same transition — resets the cursor to the
origin (rendering the grid cleared), empties the key-state map, clears
the game-over flag and the game identity, draws the dictionary's fresh
answer, and recomputes the displayed score from the ledger, while the
store (and hence its total score) is untouched. -/
theorem restart_resets_session (d : Dictionary) (m : Model) (s : Store)
    (hlen : d.randomWord.length = 5) (halen : m.answer.length = 5) :
    (step d (m, s) Msg.keyCtrlR).2 = s ∧
    (step d (m, s) Msg.keyCtrlR).1.gridRow = 0 ∧
    (step d (m, s) Msg.keyCtrlR).1.gridCol = 0 ∧
    (step d (m, s) Msg.keyCtrlR).1.keyStates = (fun _ => keyState.unselected) ∧
    (step d (m, s) Msg.keyCtrlR).1.gameOver = false ∧
    (step d (m, s) Msg.keyCtrlR).1.gameID = 0 ∧
    (step d (m, s) Msg.keyCtrlR).1.answer = d.randomWord ∧
    (step d (m, s) Msg.keyCtrlR).1.score = totalScore s ∧
    viewGridCells (step d (m, s) Msg.keyCtrlR).1 = emptyGridCells ∧
    totalScore (step d (m, s) Msg.keyCtrlR).2 = totalScore s ∧
    (m.gameOver = true →
      step d (m, s) Msg.keyEnter = step d (m, s) Msg.keyCtrlR) := by
  refine ⟨rfl, by simp [step], by simp [step], by simp [step], by simp [step],
    by simp [step], ?_, by simp [step], ?_, rfl, ?_⟩
  · show (doRestart d s (resetStatus m)).answer = d.randomWord
    rw [doRestart_answer]
    exact copyWord_eq _ _ (by simpa using halen) hlen
  · exact viewGridCells_origin _ (by simp [step]) (by simp [step])
      (by simp [step])
  · intro hgo
    simp [step, hgo]

/-- C7 witness: restarting a finished session with stale grid letters
renders a cleared grid and leaves the one-game ledger intact. -/
theorem restart_resets_session_witness :
    dCrane.randomWord.length = 5 ∧ mFinished.answer.length = 5 ∧
    viewGridCells (step dCrane (mFinished, sOneGame) Msg.keyCtrlR).1
      = emptyGridCells ∧
    (step dCrane (mFinished, sOneGame) Msg.keyCtrlR).2 = sOneGame ∧
    totalScore (step dCrane (mFinished, sOneGame) Msg.keyCtrlR).2
      = totalScore sOneGame :=
  ⟨by decide, by decide,
    (restart_resets_session _ _ _ (by decide) (by decide)).2.2.2.2.2.2.2.2.1,
    (restart_resets_session _ _ _ (by decide) (by decide)).1,
    (restart_resets_session _ _ _ (by decide) (by decide)).2.2.2.2.2.2.2.2.2.1⟩

/-! ## C8: `CreateGame` is called lazily and at most once per game -/

@[simp] lemma doAcceptChar_gameID (m : Model) (c : Nat) :
    (doAcceptChar m c).gameID = m.gameID := by
  unfold doAcceptChar
  split
  · rfl
  · dsimp only
    split <;> rfl

@[simp] lemma doAcceptChar_gameOver (m : Model) (c : Nat) :
    (doAcceptChar m c).gameOver = m.gameOver := by
  unfold doAcceptChar
  split
  · rfl
  · dsimp only
    split <;> rfl

@[simp] lemma doAcceptChar_gridRow (m : Model) (c : Nat) :
    (doAcceptChar m c).gridRow = m.gridRow := by
  unfold doAcceptChar
  split
  · rfl
  · dsimp only
    split <;> rfl

lemma doAcceptChar_gridCol_le (m : Model) (c : Nat) (h : m.gridCol ≤ 5) :
    (doAcceptChar m c).gridCol ≤ 5 := by
  unfold doAcceptChar
  split
  · exact h
  · rename_i hcond
    dsimp only
    split
    · simp only
      push_neg at hcond
      omega
    · exact h

@[simp] lemma doDeleteChar_gameID (m : Model) :
    (doDeleteChar m).gameID = m.gameID := by
  unfold doDeleteChar
  split <;> rfl

@[simp] lemma doDeleteChar_gameOver (m : Model) :
    (doDeleteChar m).gameOver = m.gameOver := by
  unfold doDeleteChar
  split <;> rfl

@[simp] lemma doDeleteChar_gridRow (m : Model) :
    (doDeleteChar m).gridRow = m.gridRow := by
  unfold doDeleteChar
  split <;> rfl

lemma doDeleteChar_gridCol_le (m : Model) :
    (doDeleteChar m).gridCol ≤ m.gridCol := by
  unfold doDeleteChar
  split
  · simp only
    omega
  · exact le_refl _

@[simp] lemma doWin_fst_gameID (m : Model) (s : Store) :
    (doWin m s).1.gameID = m.gameID := rfl

@[simp] lemma doLoss_fst_gameID (m : Model) (s : Store) :
    (doLoss m s).1.gameID = m.gameID := rfl

/-- `saveGuess` with no materialized game: `CreateGame` inserts one game
row with the fresh id, `CreateGuess` one guess row under it. -/
lemma saveGuess_of_zero (m : Model) (s : Store) (w : List Nat)
    (h : m.gameID = 0) :
    saveGuess m s w =
      ({ m with gameID := s.nextId + 1 },
       { s with
           games := s.games ++ [(s.nextId + 1, m.answer)]
           guesses := s.guesses ++ [(s.nextId + 1, w)]
           nextId := s.nextId + 1 }) := by
  unfold saveGuess
  rw [if_pos h]
  rfl

/-- `saveGuess` with a materialized game: only a guess row is inserted,
under the existing id. -/
lemma saveGuess_of_ne (m : Model) (s : Store) (w : List Nat)
    (h : ¬ m.gameID = 0) :
    saveGuess m s w =
      (m, { s with guesses := s.guesses ++ [(m.gameID, w)] }) := by
  unfold saveGuess
  rw [if_neg h]
  rfl

/-- An Enter keypress in a live game is an accepted submission iff the
row is complete and the word passes the dictionary. -/
def acceptedGuess (d : Dictionary) (m : Model) : Prop :=
  m.gameOver = false ∧ m.gridCol = 5 ∧
    d.isWord (getRow m.grid m.gridRow) = true

instance (d : Dictionary) (m : Model) : Decidable (acceptedGuess d m) := by
  unfold acceptedGuess
  infer_instance

/-- C8: per step, a game row is created exactly on an accepted guess of a
session whose game is not yet materialized (`gameID = 0`), and then the
fresh nonzero id is retained; an accepted guess of a materialized game
creates nothing and appends its guess row under the retained id; a
rejected Enter and every other message leave the store untouched; only a
restart (Ctrl-R, or Enter on a finished game) returns the session to the
unmaterialized state. -/
theorem createGame_lazy_once (d : Dictionary) (m : Model) (s : Store) :
    (acceptedGuess d m → m.gameID = 0 →
      (step d (m, s) Msg.keyEnter).2.games
          = s.games ++ [(s.nextId + 1, m.answer)] ∧
        (step d (m, s) Msg.keyEnter).1.gameID = s.nextId + 1 ∧
        (step d (m, s) Msg.keyEnter).1.gameID ≠ 0 ∧
        (step d (m, s) Msg.keyEnter).2.guesses
          = s.guesses ++ [(s.nextId + 1, getRow m.grid m.gridRow)]) ∧
    (acceptedGuess d m → m.gameID ≠ 0 →
      (step d (m, s) Msg.keyEnter).2.games = s.games ∧
        (step d (m, s) Msg.keyEnter).1.gameID = m.gameID ∧
        (step d (m, s) Msg.keyEnter).2.guesses
          = s.guesses ++ [(m.gameID, getRow m.grid m.gridRow)]) ∧
    (¬ acceptedGuess d m → (step d (m, s) Msg.keyEnter).2 = s) ∧
    (m.gameOver = false → ¬ acceptedGuess d m →
      (step d (m, s) Msg.keyEnter).1.gameID = m.gameID) ∧
    (∀ msg : Msg, msg ≠ Msg.keyEnter → (step d (m, s) msg).2 = s) ∧
    (∀ msg : Msg, msg ≠ Msg.keyEnter → msg ≠ Msg.keyCtrlR →
      (step d (m, s) msg).1.gameID = m.gameID) ∧
    (step d (m, s) Msg.keyCtrlR).1.gameID = 0 ∧
    (m.gameOver = true → (step d (m, s) Msg.keyEnter).1.gameID = 0) := by
  refine ⟨?_, ?_, ?_, ?_, ?_, ?_, by simp [step], ?_⟩
  · rintro ⟨hgo, hcol, hw⟩ hid
    have hstep : step d (m, s) Msg.keyEnter
        = doAcceptGuess d (resetStatus m) s := by simp [step, hgo]
    have hacc := doAcceptGuess_accepted d (resetStatus m) s
      (by simp [hgo]) (by simp [hcol]) (by simpa using hw)
    simp only [resetStatus_grid, resetStatus_gridRow, resetStatus_answer,
      resetStatus_keyStates, resetStatus_gridCol] at hacc
    rw [hstep, hacc]
    rw [saveGuess_of_zero _ _ _ (by simpa using hid)]
    dsimp only
    split
    · simp
    · split <;> simp
  · rintro ⟨hgo, hcol, hw⟩ hid
    have hstep : step d (m, s) Msg.keyEnter
        = doAcceptGuess d (resetStatus m) s := by simp [step, hgo]
    have hacc := doAcceptGuess_accepted d (resetStatus m) s
      (by simp [hgo]) (by simp [hcol]) (by simpa using hw)
    simp only [resetStatus_grid, resetStatus_gridRow, resetStatus_answer,
      resetStatus_keyStates, resetStatus_gridCol] at hacc
    rw [hstep, hacc]
    rw [saveGuess_of_ne _ _ _ (by simpa using hid)]
    dsimp only
    split
    · simp
    · split <;> simp
  · intro hrej
    by_cases hgo : m.gameOver
    · simp [step, hgo]
    · by_cases hcol : m.gridCol = 5
      · have hw : d.isWord (getRow m.grid m.gridRow) = false := by
          rcases Bool.eq_false_or_eq_true
            (d.isWord (getRow m.grid m.gridRow)) with h | h
          · exact absurd ⟨by simpa using hgo, hcol, h⟩ hrej
          · exact h
        simp [step, doAcceptGuess, hgo, hcol, hw]
      · simp [step, doAcceptGuess, hgo, hcol]
  · intro hgo hrej
    by_cases hcol : m.gridCol = 5
    · have hw : d.isWord (getRow m.grid m.gridRow) = false := by
        rcases Bool.eq_false_or_eq_true
          (d.isWord (getRow m.grid m.gridRow)) with h | h
        · exact absurd ⟨hgo, hcol, h⟩ hrej
        · exact h
      simp [step, doAcceptGuess, hgo, hcol, hw]
    · simp [step, doAcceptGuess, hgo, hcol]
  · intro msg hmsg
    cases msg with
    | msgResetStatus => simp
    | keyCtrlC => rfl
    | keyCtrlR => rfl
    | keyBackspace => rfl
    | keyEnter => exact absurd rfl hmsg
    | keyRunes cs =>
      simp only [step]
      rcases cs with _ | ⟨c, _ | _⟩ <;> rfl
    | resize w h => rfl
  · intro msg hmsg hmsg2
    cases msg with
    | msgResetStatus =>
      simp only [step]
      split <;> simp
    | keyCtrlC => simp [step]
    | keyCtrlR => exact absurd rfl hmsg2
    | keyBackspace =>
      simp only [step]
      unfold doDeleteChar
      split <;> simp
    | keyEnter => exact absurd rfl hmsg
    | keyRunes cs =>
      simp only [step]
      rcases cs with _ | ⟨c, _ | _⟩ <;> simp
    | resize w h => simp [step]
  · intro hgo
    simp [step, hgo]

/-- C8 witness: the first accepted guess of a fresh game materializes
game id 1 and records the guess under it. -/
theorem createGame_lazy_once_witness :
    acceptedGuess dCrane mSpeedRow ∧ mSpeedRow.gameID = 0 ∧
    (step dCrane (mSpeedRow, emptyStore) Msg.keyEnter).2.games
      = [(1, [67, 82, 65, 78, 69])] ∧
    (step dCrane (mSpeedRow, emptyStore) Msg.keyEnter).1.gameID = 1 :=
  ⟨⟨rfl, rfl, rfl⟩, rfl,
    ((createGame_lazy_once _ _ _).1 ⟨rfl, rfl, rfl⟩ rfl).1,
    ((createGame_lazy_once _ _ _).1 ⟨rfl, rfl, rfl⟩ rfl).2.1⟩

/-! ## C9: cursor bounds along every reachable session state -/

@[simp] lemma doWin_fst_gridCol (m : Model) (s : Store) :
    (doWin m s).1.gridCol = m.gridCol := rfl

@[simp] lemma doLoss_fst_gridCol (m : Model) (s : Store) :
    (doLoss m s).1.gridCol = m.gridCol := rfl

/-- The cursor-bound invariant, proved by induction along `Reachable`. -/
lemma bounds_invariant (d : Dictionary) (p : Model × Store)
    (h : Reachable d p) :
    p.1.gridCol ≤ 5 ∧ p.1.gridRow ≤ 6 ∧
    (p.1.gameOver = false → p.1.gridRow < 6) ∧
    (p.1.gameOver = true → 1 ≤ p.1.gridRow ∧ p.1.gridRow ≤ 6) := by
  induction h with
  | init s =>
    refine ⟨?_, ?_, ?_, ?_⟩ <;> simp [initModel]
  | next p msg hp ih =>
    obtain ⟨m, s⟩ := p
    obtain ⟨ih1, ih2, ih3, ih4⟩ := ih
    cases msg with
    | msgResetStatus =>
      simp only [step]
      dsimp only
      split <;>
        exact ⟨by simpa using ih1, by simpa using ih2, by simpa using ih3,
          by simpa using ih4⟩
    | keyCtrlC =>
      exact ⟨by simpa using ih1, by simpa using ih2, by simpa using ih3,
        by simpa using ih4⟩
    | keyCtrlR =>
      refine ⟨?_, ?_, ?_, ?_⟩ <;> simp [step]
    | keyBackspace =>
      have e : (step d (m, s) Msg.keyBackspace).1
          = doDeleteChar (resetStatus m) := rfl
      rw [e]
      refine ⟨?_, ?_, ?_, ?_⟩
      · exact le_trans (doDeleteChar_gridCol_le _) (by simpa using ih1)
      · rw [doDeleteChar_gridRow]; simpa using ih2
      · rw [doDeleteChar_gameOver, doDeleteChar_gridRow]; simpa using ih3
      · rw [doDeleteChar_gameOver, doDeleteChar_gridRow]; simpa using ih4
    | keyEnter =>
      by_cases hgo : m.gameOver = true
      · refine ⟨?_, ?_, ?_, ?_⟩ <;> simp [step, hgo]
      · have hgo' : m.gameOver = false := by simpa using hgo
        have hrow : m.gridRow < 6 := ih3 hgo'
        have hstep : step d (m, s) Msg.keyEnter
            = doAcceptGuess d (resetStatus m) s := by simp [step, hgo']
        rw [hstep]
        by_cases hcol : m.gridCol = 5
        · by_cases hw : d.isWord (getRow m.grid m.gridRow) = true
          · have hacc := doAcceptGuess_accepted d (resetStatus m) s
              (by simp [hgo']) (by simp [hcol]) (by simpa using hw)
            simp only [resetStatus_grid, resetStatus_gridRow,
              resetStatus_answer, resetStatus_keyStates,
              resetStatus_gridCol] at hacc
            rw [hacc]
            split
            · refine ⟨?_, ?_, ?_, ?_⟩ <;> simp <;> omega
            · split
              · refine ⟨?_, ?_, ?_, ?_⟩ <;> simp <;> omega
              · rename_i hsix
                have hsix' : ¬ m.gridRow + 1 = 6 := by simpa using hsix
                refine ⟨?_, ?_, ?_, ?_⟩ <;> simp [hgo'] <;> omega
          · have hwf : d.isWord (getRow m.grid m.gridRow) = false := by
              simpa using hw
            refine ⟨?_, ?_, ?_, ?_⟩ <;>
              simp [doAcceptGuess, hgo', hcol, hwf] <;>
              first | exact ih1 | exact ih2 | exact hrow
        · refine ⟨?_, ?_, ?_, ?_⟩ <;>
            simp [doAcceptGuess, hgo', hcol] <;>
            first | exact ih1 | exact ih2 | exact hrow
    | keyRunes cs =>
      rcases cs with _ | ⟨c, _ | _⟩
      · exact ⟨by simpa using ih1, by simpa using ih2, by simpa using ih3,
          by simpa using ih4⟩
      · have e : (step d (m, s) (Msg.keyRunes [c])).1
            = doAcceptChar (resetStatus m) c := rfl
        rw [e]
        refine ⟨?_, ?_, ?_, ?_⟩
        · exact doAcceptChar_gridCol_le _ _ (by simpa using ih1)
        · rw [doAcceptChar_gridRow]; simpa using ih2
        · rw [doAcceptChar_gameOver, doAcceptChar_gridRow]; simpa using ih3
        · rw [doAcceptChar_gameOver, doAcceptChar_gridRow]; simpa using ih4
      · exact ⟨by simpa using ih1, by simpa using ih2, by simpa using ih3,
          by simpa using ih4⟩
    | resize w h =>
      exact ⟨by simpa using ih1, by simpa using ih2, by simpa using ih3,
        by simpa using ih4⟩

/-- C9: in every reachable session state the cursor is in bounds —
`gridCol ≤ 5`, `gridRow ≤ 6`, a live game always has `gridRow < 6` (so
`grid[gridRow]` and `grid[gridRow][gridCol]` accesses are in range), and
a finished game has `1 ≤ gridRow ≤ 6` (the precondition recorded wins
rely on). -/
theorem cursor_bounds (d : Dictionary) (p : Model × Store)
    (h : Reachable d p) :
    p.1.gridCol ≤ 5 ∧ p.1.gridRow ≤ 6 ∧
    (p.1.gameOver = false → p.1.gridRow < 6) ∧
    (p.1.gameOver = true → 1 ≤ p.1.gridRow ∧ p.1.gridRow ≤ 6) :=
  bounds_invariant d p h

/-- C9 witness: the initial state of a fresh session over the empty store
is reachable and satisfies the cursor bounds. -/
theorem cursor_bounds_witness :
    (initModel dCrane emptyStore, emptyStore).1.gridCol ≤ 5 ∧
    (initModel dCrane emptyStore, emptyStore).1.gridRow ≤ 6 ∧
    ((initModel dCrane emptyStore, emptyStore).1.gameOver = false →
      (initModel dCrane emptyStore, emptyStore).1.gridRow < 6) ∧
    ((initModel dCrane emptyStore, emptyStore).1.gameOver = true →
      1 ≤ (initModel dCrane emptyStore, emptyStore).1.gridRow ∧
        (initModel dCrane emptyStore, emptyStore).1.gridRow ≤ 6) :=
  cursor_bounds _ _ (Reachable.init _)

/-! ### Store consistency along reachable states

The hypothesis of the C1 theorem — every persisted game row is
win-consistent — holds of every ledger the session machine produces from
the empty store, because the session stops accepting guesses once the
answer is hit: the answer is written at most once, and only as the final
guess of its game. -/

@[simp] lemma createGuess_games (s : Store) (gid : Nat) (w : List Nat) :
    (createGuess s gid w).games = s.games := rfl

@[simp] lemma createGuess_nextId (s : Store) (gid : Nat) (w : List Nat) :
    (createGuess s gid w).nextId = s.nextId := rfl

lemma guessesOf_createGuess (s : Store) (gid : Nat) (w : List Nat)
    (gid' : Nat) :
    guessesOf (createGuess s gid w) gid'
      = guessesOf s gid' ++ if gid = gid' then [w] else [] := by
  unfold guessesOf createGuess
  dsimp only
  rw [List.filter_append, List.map_append]
  by_cases h : gid = gid'
  · simp [h]
  · simp [h]

lemma guessesOf_fresh (s : Store) (gid : Nat)
    (h : ∀ r ∈ s.guesses, r.1 ≤ s.nextId) (hg : s.nextId < gid) :
    guessesOf s gid = [] := by
  unfold guessesOf
  have : s.guesses.filter (fun r => r.1 == gid) = [] := by
    rw [List.filter_eq_nil_iff]
    intro r hr
    have := h r hr
    simp only [beq_iff_eq]
    omega
  rw [this, List.map_nil]

/-- `winConsistent` only looks at the game's own guess rows. -/
lemma winConsistent_ext {s s' : Store} {g : Nat × List Nat}
    (h : guessesOf s' g.1 = guessesOf s g.1) (hw : winConsistent s g) :
    winConsistent s' g := by
  unfold winConsistent victoryCount at *
  rw [h]
  exact hw

/-- A game whose guess list is the single word `w` is win-consistent,
whether or not `w` is its answer. -/
lemma winConsistent_single {s : Store} {g : Nat × List Nat} {w : List Nat}
    (h : guessesOf s g.1 = [w]) : winConsistent s g := by
  unfold winConsistent victoryCount
  rw [h]
  by_cases hw : w = g.2
  · simp [hw]
  · simp [List.countP_cons, hw, Ne.symm hw]

/-- Appending a guess to a game that had no victory guess keeps it
win-consistent. -/
lemma winConsistent_append {s s' : Store} {g : Nat × List Nat} {w : List Nat}
    (h : guessesOf s' g.1 = guessesOf s g.1 ++ [w])
    (h0 : victoryCount s g = 0) : winConsistent s' g := by
  unfold winConsistent victoryCount at *
  rw [h, List.countP_append, h0, List.getLast?_concat]
  by_cases hw : w = g.2
  · simp [hw]
  · simp [List.countP_cons, hw, Ne.symm hw]

/-- Appending a non-answer guess keeps the victory count at zero. -/
lemma victoryCount_append_ne {s s' : Store} {g : Nat × List Nat}
    {w : List Nat} (h : guessesOf s' g.1 = guessesOf s g.1 ++ [w])
    (h0 : victoryCount s g = 0) (hw : w ≠ g.2) : victoryCount s' g = 0 := by
  unfold victoryCount at *
  rw [h, List.countP_append, h0]
  simp [List.countP_cons, hw]

lemma copyWord_length (dst src : List Nat) :
    (copyWord dst src).length = dst.length := by
  unfold copyWord
  rw [List.length_append, List.length_take, List.length_drop]
  omega

lemma guessesOf_append_row {s s' : Store} {gid : Nat} {w : List Nat}
    (h : s'.guesses = s.guesses ++ [(gid, w)]) (gid' : Nat) :
    guessesOf s' gid'
      = guessesOf s gid' ++ if gid = gid' then [w] else [] := by
  unfold guessesOf
  rw [h, List.filter_append, List.map_append]
  by_cases hh : gid = gid' <;> simp [hh]

@[simp] lemma doWin_fst_answer (m : Model) (s : Store) :
    (doWin m s).1.answer = m.answer := rfl

@[simp] lemma doWin_fst_grid (m : Model) (s : Store) :
    (doWin m s).1.grid = m.grid := rfl

@[simp] lemma doLoss_fst_answer (m : Model) (s : Store) :
    (doLoss m s).1.answer = m.answer := rfl

@[simp] lemma doLoss_fst_grid (m : Model) (s : Store) :
    (doLoss m s).1.grid = m.grid := rfl

@[simp] lemma doAcceptChar_answer (m : Model) (c : Nat) :
    (doAcceptChar m c).answer = m.answer := by
  unfold doAcceptChar
  split
  · rfl
  · dsimp only
    split <;> rfl

@[simp] lemma doDeleteChar_answer (m : Model) :
    (doDeleteChar m).answer = m.answer := by
  unfold doDeleteChar
  split <;> rfl

@[simp] lemma doDeleteChar_grid (m : Model) :
    (doDeleteChar m).grid = m.grid := by
  unfold doDeleteChar
  split <;> rfl

/-- Shape of the model's word data: a 5-byte answer, a 6-row grid of
5-byte rows — the Go `[numChars]byte` and `[numGuesses][numChars]byte`
arrays. -/
def MShape (m : Model) : Prop :=
  m.answer.length = 5 ∧ m.grid.length = 6 ∧ ∀ r ∈ m.grid, r.length = 5

/-- The ledger bookkeeping a single session maintains: game and guess ids
are bounded by the id counter, game ids are positive, every persisted
game row is win-consistent, and the session's materialized game (if any)
carries the session's answer and has no victory row while the game is
live. -/
def StoreInv (m : Model) (s : Store) : Prop :=
  (∀ g ∈ s.games, 1 ≤ g.1 ∧ g.1 ≤ s.nextId) ∧
  (∀ r ∈ s.guesses, r.1 ≤ s.nextId) ∧
  (∀ g ∈ s.games, winConsistent s g) ∧
  (m.gameID ≠ 0 → m.gameID ≤ s.nextId ∧
    ∀ g ∈ s.games, g.1 = m.gameID →
      g.2 = m.answer ∧ (m.gameOver = false → victoryCount s g = 0))

def SessionInv (m : Model) (s : Store) : Prop :=
  MShape m ∧ StoreInv m s

lemma getRow_length {m : Model} (hm : MShape m) (r : Nat) (hr : r < 6) :
    (getRow m.grid r).length = 5 := by
  obtain ⟨-, hg6, hrows⟩ := hm
  unfold getRow
  have hb : r < m.grid.length := by omega
  rw [List.getD_eq_getElem _ _ hb]
  exact hrows _ (List.getElem_mem hb)

lemma mshape_congr {m m' : Model} (hans : m'.answer = m.answer)
    (hgrid : m'.grid = m.grid) (h : MShape m) : MShape m' := by
  rw [MShape, hans, hgrid]
  exact h

lemma storeInv_congr {m m' : Model} {s : Store} (hid : m'.gameID = m.gameID)
    (hans : m'.answer = m.answer) (hgo : m'.gameOver = m.gameOver)
    (h : StoreInv m s) : StoreInv m' s := by
  obtain ⟨h1, h2, h3, h4⟩ := h
  refine ⟨h1, h2, h3, ?_⟩
  rw [hid, hans, hgo]
  exact h4

lemma storeInv_zero {m m' : Model} {s : Store} (hid : m'.gameID = 0)
    (h : StoreInv m s) : StoreInv m' s :=
  ⟨h.1, h.2.1, h.2.2.1, fun hne => absurd hid hne⟩

lemma mshape_restart (d : Dictionary) (s : Store) {m : Model}
    (h : MShape m) : MShape (doRestart d s m) := by
  obtain ⟨h1, h2, h3⟩ := h
  refine ⟨?_, ?_, ?_⟩
  · rw [doRestart_answer, copyWord_length]
    exact h1
  · rw [doRestart_grid]
    exact h2
  · rw [doRestart_grid]
    exact h3

lemma mshape_acceptChar {m : Model} (c : Nat) (h : MShape m) :
    MShape (doAcceptChar m c) := by
  obtain ⟨h1, h2, h3⟩ := h
  unfold doAcceptChar
  split
  · exact ⟨h1, h2, h3⟩
  · rename_i hcond
    push_neg at hcond
    dsimp only
    split
    · refine ⟨h1, ?_, ?_⟩
      · simp only [setCell, List.length_set]
        exact h2
      · intro r hr
        simp only [setCell] at hr
        rcases List.mem_or_eq_of_mem_set hr with hmem | heq
        · exact h3 r hmem
        · subst heq
          rw [List.length_set]
          have hb : m.gridRow < m.grid.length := by
            rw [h2]; exact hcond.2.1
          rw [List.getD_eq_getElem _ _ hb]
          exact h3 _ (List.getElem_mem hb)
    · exact ⟨h1, h2, h3⟩

/-- `StoreInv` is preserved by the first guess write of a game:
`CreateGame` with the fresh id followed by `CreateGuess` under it. -/
lemma storeInv_after_zero {m m' : Model} {s : Store} {w : List Nat}
    (hstore : StoreInv m s)
    (hid' : m'.gameID = s.nextId + 1)
    (hans' : m'.answer = m.answer)
    (hlive : m'.gameOver = false → w ≠ m.answer) :
    StoreInv m'
      { s with
          games := s.games ++ [(s.nextId + 1, m.answer)]
          guesses := s.guesses ++ [(s.nextId + 1, w)]
          nextId := s.nextId + 1 } := by
  obtain ⟨hs1, hs2, hs3, hs4⟩ := hstore
  have hG := @guessesOf_append_row s
    { s with
        games := s.games ++ [(s.nextId + 1, m.answer)]
        guesses := s.guesses ++ [(s.nextId + 1, w)]
        nextId := s.nextId + 1 }
    (s.nextId + 1) w rfl
  refine ⟨?_, ?_, ?_, ?_⟩
  · intro g hg
    rcases List.mem_append.mp hg with hgo | hgn
    · have := hs1 g hgo
      exact ⟨this.1, by simp only; omega⟩
    · rcases List.mem_singleton.mp hgn with rfl
      exact ⟨by omega, by simp⟩
  · intro r hr
    rcases List.mem_append.mp hr with hro | hrn
    · have := hs2 r hro
      simp only
      omega
    · rcases List.mem_singleton.mp hrn with rfl
      simp
  · intro g hg
    rcases List.mem_append.mp hg with hgo | hgn
    · refine winConsistent_ext ?_ (hs3 g hgo)
      rw [hG g.1, if_neg (by have := hs1 g hgo; omega), List.append_nil]
    · rcases List.mem_singleton.mp hgn with rfl
      refine winConsistent_single (w := w) ?_
      rw [hG, if_pos rfl, guessesOf_fresh s _ hs2 (by omega),
        List.nil_append]
  · intro _
    refine ⟨by rw [hid'], ?_⟩
    intro g hg hgid
    rcases List.mem_append.mp hg with hgo | hgn
    · exfalso
      have := hs1 g hgo
      rw [hid'] at hgid
      omega
    · rcases List.mem_singleton.mp hgn with rfl
      refine ⟨hans'.symm, ?_⟩
      intro hlive'
      have hwne := hlive hlive'
      unfold victoryCount
      rw [hG, if_pos rfl, guessesOf_fresh s _ hs2 (by omega),
        List.nil_append]
      simp [List.countP_cons, hwne]

/-- `StoreInv` is preserved by a further guess write of a live,
already-materialized game: only `CreateGuess` runs, under the retained
id. -/
lemma storeInv_after_save {m m' : Model} {s : Store} {w : List Nat}
    (hstore : StoreInv m s)
    (hgo : m.gameOver = false)
    (hidne : m.gameID ≠ 0)
    (hid' : m'.gameID = m.gameID)
    (hans' : m'.answer = m.answer)
    (hlive : m'.gameOver = false → w ≠ m.answer) :
    StoreInv m' { s with guesses := s.guesses ++ [(m.gameID, w)] } := by
  obtain ⟨hs1, hs2, hs3, hs4⟩ := hstore
  obtain ⟨hle, hcur⟩ := hs4 hidne
  have hG := @guessesOf_append_row s
    { s with guesses := s.guesses ++ [(m.gameID, w)] }
    m.gameID w rfl
  refine ⟨hs1, ?_, ?_, ?_⟩
  · intro r hr
    rcases List.mem_append.mp hr with hro | hrn
    · exact hs2 r hro
    · rcases List.mem_singleton.mp hrn with rfl
      exact hle
  · intro g hg
    by_cases hgid : g.1 = m.gameID
    · have hcount : victoryCount s g = 0 := (hcur g hg hgid).2 hgo
      refine winConsistent_append (w := w) ?_ hcount
      rw [hG g.1, if_pos hgid.symm]
    · refine winConsistent_ext ?_ (hs3 g hg)
      rw [hG g.1, if_neg (fun hh => hgid hh.symm), List.append_nil]
  · intro _
    refine ⟨by rw [hid']; exact hle, ?_⟩
    intro g hg hgid
    rw [hid'] at hgid
    obtain ⟨hgans, -⟩ := hcur g hg hgid
    refine ⟨by rw [hans']; exact hgans, ?_⟩
    intro hlive'
    have hwne : w ≠ g.2 := fun hh => hlive hlive' (hh.trans hgans)
    refine victoryCount_append_ne ?_ ((hcur g hg hgid).2 hgo) hwne
    rw [hG g.1, if_pos hgid.symm]

/-- `doAcceptGuess` on a live game with an incomplete row. -/
lemma doAcceptGuess_incomplete (d : Dictionary) (m : Model) (s : Store)
    (hgo : m.gameOver = false) (hcol : m.gridCol ≠ 5) :
    doAcceptGuess d m s
      = (setStatus m "Your guess must be a 5-letter word." true, s) := by
  unfold doAcceptGuess
  rw [if_neg (by simp [hgo]), if_pos hcol]

/-- `doAcceptGuess` on a live game with a complete non-dictionary word. -/
lemma doAcceptGuess_invalid (d : Dictionary) (m : Model) (s : Store)
    (hgo : m.gameOver = false) (hcol : m.gridCol = 5)
    (hw : d.isWord (getRow m.grid m.gridRow) = false) :
    doAcceptGuess d m s
      = (setStatus m "That's not a valid word." true, s) := by
  unfold doAcceptGuess
  rw [if_neg (by simp [hgo]), if_neg (by simp [hcol])]
  dsimp only
  rw [if_pos hw]

/-- `SessionInv` is preserved by every step of the event loop (the row
bound of a live game is supplied by `bounds_invariant`). -/
lemma sessionInv_step (d : Dictionary) (m : Model) (s : Store) (msg : Msg)
    (hrow : m.gameOver = false → m.gridRow < 6)
    (hinv : SessionInv m s) :
    SessionInv (step d (m, s) msg).1 (step d (m, s) msg).2 := by
  obtain ⟨hshape, hstore⟩ := hinv
  cases msg with
  | msgResetStatus =>
    simp only [step]
    dsimp only
    split
    · exact ⟨mshape_congr rfl rfl hshape, storeInv_congr rfl rfl rfl hstore⟩
    · exact ⟨mshape_congr rfl rfl hshape, storeInv_congr rfl rfl rfl hstore⟩
  | keyCtrlC =>
    exact ⟨mshape_congr rfl rfl hshape, storeInv_congr rfl rfl rfl hstore⟩
  | keyCtrlR =>
    exact ⟨mshape_restart d s (mshape_congr rfl rfl hshape),
      storeInv_zero rfl hstore⟩
  | keyBackspace =>
    refine ⟨mshape_congr ?_ ?_ hshape, storeInv_congr ?_ ?_ ?_ hstore⟩ <;>
      simp [step]
  | keyEnter =>
    by_cases hgo : m.gameOver = true
    · have e : step d (m, s) Msg.keyEnter
          = (doRestart d s (resetStatus m), s) := by simp [step, hgo]
      rw [e]
      exact ⟨mshape_restart d s (mshape_congr rfl rfl hshape),
        storeInv_zero rfl hstore⟩
    · have hgo' : m.gameOver = false := by simpa using hgo
      have hstep : step d (m, s) Msg.keyEnter
          = doAcceptGuess d (resetStatus m) s := by simp [step, hgo']
      rw [hstep]
      by_cases hcol : m.gridCol = 5
      · by_cases hw : d.isWord (getRow m.grid m.gridRow) = true
        · -- accepted submission
          have hacc := doAcceptGuess_accepted d (resetStatus m) s
            (by simp [hgo']) (by simp [hcol]) (by simpa using hw)
          simp only [resetStatus_grid, resetStatus_gridRow,
            resetStatus_answer, resetStatus_keyStates,
            resetStatus_gridCol] at hacc
          rw [hacc]
          have hwlen : (getRow m.grid m.gridRow).length = 5 :=
            getRow_length hshape _ (hrow hgo')
          have hsucc := updateKeys_success_iff m.answer
            (getRow m.grid m.gridRow) m.answer
            (by rw [hwlen, hshape.1]) m.keyStates
          by_cases hid : m.gameID = 0
          · rw [saveGuess_of_zero _ _ _ (by simpa using hid)]
            split
            · rename_i huk
              refine ⟨mshape_congr (by simp) (by simp) hshape, ?_⟩
              exact storeInv_after_zero hstore (by simp) (by simp)
                (fun hlive => by simp at hlive)
            · split
              · refine ⟨mshape_congr (by simp) (by simp) hshape, ?_⟩
                exact storeInv_after_zero hstore (by simp) (by simp)
                  (fun hlive => by simp at hlive)
              · rename_i huk hsix
                refine ⟨mshape_congr (by simp) (by simp) hshape, ?_⟩
                refine storeInv_after_zero hstore (by simp) (by simp) ?_
                intro _ heq
                exact huk (hsucc.mpr heq)
          · rw [saveGuess_of_ne _ _ _ (by simpa using hid)]
            have hidr : (resetStatus m).gameID = m.gameID := rfl
            rw [hidr]
            split
            · refine ⟨mshape_congr (by simp) (by simp) hshape, ?_⟩
              exact storeInv_after_save hstore hgo' hid (by simp) (by simp)
                (fun hlive => by simp at hlive)
            · split
              · refine ⟨mshape_congr (by simp) (by simp) hshape, ?_⟩
                exact storeInv_after_save hstore hgo' hid (by simp)
                  (by simp) (fun hlive => by simp at hlive)
              · rename_i huk hsix
                refine ⟨mshape_congr (by simp) (by simp) hshape, ?_⟩
                refine storeInv_after_save hstore hgo' hid (by simp)
                  (by simp) ?_
                intro _ heq
                exact huk (hsucc.mpr heq)
        · rw [doAcceptGuess_invalid d (resetStatus m) s (by simp [hgo'])
            (by simp [hcol]) (by simpa using hw)]
          exact ⟨mshape_congr rfl rfl hshape,
            storeInv_congr rfl rfl rfl hstore⟩
      · rw [doAcceptGuess_incomplete d (resetStatus m) s (by simp [hgo'])
          (by simp [hcol])]
        exact ⟨mshape_congr rfl rfl hshape,
          storeInv_congr rfl rfl rfl hstore⟩
  | keyRunes cs =>
    rcases cs with _ | ⟨c, _ | _⟩
    · exact ⟨mshape_congr rfl rfl hshape, storeInv_congr rfl rfl rfl hstore⟩
    · refine ⟨mshape_acceptChar c (mshape_congr rfl rfl hshape), ?_⟩
      exact storeInv_congr (by simp [step]) (by simp [step])
        (by simp [step]) hstore
    · exact ⟨mshape_congr rfl rfl hshape, storeInv_congr rfl rfl rfl hstore⟩
  | resize w h =>
    exact ⟨mshape_congr rfl rfl hshape, storeInv_congr rfl rfl rfl hstore⟩

/-- Session states reachable by the event loop from a fresh session over
the empty ledger of a first run. -/
inductive ReachableE (d : Dictionary) : Model × Store → Prop where
  | init : ReachableE d (initModel d emptyStore, emptyStore)
  | next (p : Model × Store) (msg : Msg) :
      ReachableE d p → ReachableE d (step d p msg)

lemma reachableE_inv (d : Dictionary) (p : Model × Store)
    (h : ReachableE d p) : SessionInv p.1 p.2 ∧ Reachable d p := by
  induction h with
  | init =>
    refine ⟨⟨⟨?_, ?_, ?_⟩, ?_, ?_, ?_, ?_⟩, ?_⟩
    · rw [initModel, doRestart_answer, copyWord_length]
      rfl
    · rfl
    · intro r hr
      have e : (initModel d emptyStore).grid = blankModel.grid := rfl
      rw [e] at hr
      simp only [blankModel, List.mem_cons, List.not_mem_nil, or_false] at hr
      rcases hr with rfl | rfl | rfl | rfl | rfl | rfl <;> rfl
    · intro g hg
      exact absurd hg (List.not_mem_nil g)
    · intro r hr
      exact absurd hr (List.not_mem_nil r)
    · intro g hg
      exact absurd hg (List.not_mem_nil g)
    · intro hne
      exact absurd rfl hne
    · exact Reachable.init emptyStore
  | next p msg hp ih =>
    obtain ⟨m, s⟩ := p
    refine ⟨sessionInv_step d m s msg ?_ ih.1, Reachable.next _ _ ih.2⟩
    intro hgo
    exact (bounds_invariant d (m, s) ih.2).2.2.1 hgo

/-- Every ledger produced by a session from the empty store satisfies the
win-consistency hypothesis of the C1 theorem: the victory-join win test
and the spec's last-guess win test agree on all program-written rows. -/
lemma reachable_store_winConsistent (d : Dictionary) (p : Model × Store)
    (h : ReachableE d p) : ∀ g ∈ p.2.games, winConsistent p.2 g :=
  ((reachableE_inv d p h).1).2.2.2.1

/-- On every reachable ledger, `GetTotalScore` equals the spec's sum. -/
lemma reachable_totalScore_spec (d : Dictionary) (p : Model × Store)
    (h : ReachableE d p) : totalScore p.2 = specTotalScore p.2 :=
  totalScore_eq_spec_aux p.2 p.2.games (reachable_store_winConsistent d p h)

/-! ## C3: the two-pass evaluation on answer "SPEED", guess "ERASE" -/

/-- C3: the evaluation is the deterministic two-pass function
`viewGridRowFilled`; on answer "SPEED" (83,80,69,69,68) and guess
"ERASE" (69,82,65,83,69) the per-position classification is
[Present, Absent, Absent, Present, Present]. -/
theorem viewGridRowFilled_speed_erase :
    viewGridRowFilled [83, 80, 69, 69, 68] [69, 82, 65, 83, 69]
      = [keyState.present, keyState.absent, keyState.absent,
         keyState.present, keyState.present] := by
  decide

end Clidle
